import Mathlib

/-!
Verification development for the kalshi repository (query.py and
stream_events.py).  The Python code is shallowly embedded: dict-based
records become structures or association lists, generators become lists
(with explicit pull accounting where laziness matters), the unbounded
pagination loops take a fuel argument and log every page fetch, and the
datetime values become exact rationals measured in seconds.
-/

namespace Query

/-- One decimal digit, as consumed by the CPython strptime patterns. -/
def digit? (c : Char) : Option Nat :=
  if c.isDigit then some (c.toNat - 48) else none

/-- Exactly four decimal digits: the strptime pattern for %Y. -/
def parse4 : List Char → Option (Nat × List Char)
  | c1 :: c2 :: c3 :: c4 :: rest => do
    let d1 ← digit? c1
    let d2 ← digit? c2
    let d3 ← digit? c3
    let d4 ← digit? c4
    pure (1000 * d1 + 100 * d2 + 10 * d3 + d4, rest)
  | _ => none

/-- A calendar field: two digits when the two-digit value lies in
[lo2, hi2], else a single digit in [lo1, hi1].  This mirrors the strptime
alternations (for example the month pattern accepts 01-12 or 1-9); as the
two-digit branches never place a separator in their second position, no
backtracking beyond this greedy choice is ever needed. -/
def parse2or1 (lo2 hi2 lo1 hi1 : Nat) : List Char → Option (Nat × List Char)
  | c1 :: c2 :: rest =>
    match digit? c1, digit? c2 with
    | some d1, some d2 =>
      let v := 10 * d1 + d2
      if lo2 ≤ v ∧ v ≤ hi2 then some (v, rest)
      else if lo1 ≤ d1 ∧ d1 ≤ hi1 then some (d1, c2 :: rest)
      else none
    | some d1, none =>
      if lo1 ≤ d1 ∧ d1 ≤ hi1 then some (d1, c2 :: rest) else none
    | none, _ => none
  | [c1] =>
    match digit? c1 with
    | some d1 => if lo1 ≤ d1 ∧ d1 ≤ hi1 then some (d1, []) else none
    | none => none
  | [] => none

/-- A single literal character of the format string. -/
def lit (ch : Char) : List Char → Option (List Char)
  | c :: rest => if c = ch then some rest else none
  | [] => none

/-- Up to the given number of leading digits (most-significant first). -/
def fracDigits : List Char → Nat → (List Nat × List Char)
  | c :: rest, n + 1 =>
    match digit? c with
    | some d =>
      let p := fracDigits rest n
      (d :: p.1, p.2)
    | none => ([], c :: rest)
  | cs, _ => ([], cs)

/-- The %f field: one to six digits, interpreted as a fraction of a
second exactly as strptime zero-pads it to microseconds. -/
def parseFrac (cs : List Char) : Option (ℚ × List Char) :=
  let p := fracDigits cs 6
  if p.1.length = 0 then none
  else
    let v : Nat := p.1.foldl (fun a d => 10 * a + d) 0
    some ((v : ℚ) / ((10 : ℚ) ^ p.1.length), p.2)

def isLeap (y : Nat) : Bool :=
  y % 4 == 0 && (y % 100 != 0 || y % 400 == 0)

def daysInMonth (y m : Nat) : Nat :=
  if m = 2 then (if isLeap y then 29 else 28)
  else if m = 4 ∨ m = 6 ∨ m = 9 ∨ m = 11 then 30
  else 31

/-- Days from 1970-01-01 to the given proleptic-Gregorian civil date
(the standard era/year-of-era computation). -/
def daysFromCivil (y m d : Nat) : Int :=
  let yi : Int := if m ≤ 2 then (y : Int) - 1 else (y : Int)
  let era : Int := (if 0 ≤ yi then yi else yi - 399) / 400
  let yoe : Int := yi - era * 400
  let mp : Int := ((m : Int) + 9) % 12
  let doy : Int := (153 * mp + 2) / 5 + (d : Int) - 1
  let doe : Int := yoe * 365 + yoe / 4 - yoe / 100 + doy
  era * 146097 + doe - 719468

/-- Seconds since the epoch of a UTC datetime, as an exact rational. -/
def toEpoch (y mo d h mi s : Nat) (frac : ℚ) : ℚ :=
  ((daysFromCivil y mo d * 86400 + (h : Int) * 3600 + (mi : Int) * 60 + (s : Int) : Int) : ℚ) + frac

/-- The range checks done by the datetime constructor; the field patterns
already bound month, hour, minute and second. -/
def validDate (y mo d : Nat) : Bool :=
  1 ≤ y && 1 ≤ d && d ≤ daysInMonth y mo

/-- The digit fields shared by the two accepted formats:
%Y-%m-%dT%H:%M:%S. -/
def parseCommon (cs : List Char) : Option (Nat × Nat × Nat × Nat × Nat × Nat × List Char) := do
  let (y, r) ← parse4 cs
  let r ← lit '-' r
  let (mo, r) ← parse2or1 1 12 1 9 r
  let r ← lit '-' r
  let (d, r) ← parse2or1 1 31 1 9 r
  let r ← lit 'T' r
  let (h, r) ← parse2or1 0 23 0 9 r
  let r ← lit ':' r
  let (mi, r) ← parse2or1 0 59 0 9 r
  let r ← lit ':' r
  let (s, r) ← parse2or1 0 59 0 9 r
  pure (y, mo, d, h, mi, s, r)

/-- strptime with format %Y-%m-%dT%H:%M:%SZ; a failed range check raises
ValueError in Python, here: none. -/
def parseFmtZ (str : String) : Option ℚ := do
  let (y, mo, d, h, mi, s, r) ← parseCommon str.data
  let r ← lit 'Z' r
  if r = [] ∧ validDate y mo d then pure (toEpoch y mo d h mi s 0) else none

/-- strptime with format %Y-%m-%dT%H:%M:%S.%fZ. -/
def parseFmtFZ (str : String) : Option ℚ := do
  let (y, mo, d, h, mi, s, r) ← parseCommon str.data
  let r ← lit '.' r
  let (f, r) ← parseFrac r
  let r ← lit 'Z' r
  if r = [] ∧ validDate y mo d then pure (toEpoch y mo d h mi s f) else none

/-- query.py parse_ts: a falsy argument (None or the empty string) gives
None, then the two fixed formats are tried in order and a parse failure
falls through; if both fail the result is None. -/
def parse_ts (ts_str : Option String) : Option ℚ :=
  match ts_str with
  | none => none
  | some s =>
    if s = "" then none
    else (parseFmtZ s).orElse (fun _ => parseFmtFZ s)

/-- str.lower on the ASCII status strings this API uses: lowercase every
character. -/
def pyLower (s : String) : String :=
  ⟨s.data.map Char.toLower⟩

/-- The fields of a market record read by is_live_game_market; a missing
dict key is the None that dict.get returns. -/
structure Market where
  status : Option String
  result : Option String
  open_time : Option String
  expected_expiration_time : Option String
  latest_expiration_time : Option String
  expiration_time : Option String

/-- The expiration-resolution expression inside is_live_game_market: a
Python or-chain over the three parse attempts, so the value is the first
parse that succeeds. -/
def resolve_expiration (m : Market) : Option ℚ :=
  (parse_ts m.expected_expiration_time).orElse (fun _ =>
    (parse_ts m.latest_expiration_time).orElse (fun _ =>
      parse_ts m.expiration_time))

/-- query.py is_live_game_market.  now_utc is in epoch seconds; the float
divisions of the source are modelled exactly over the rationals. -/
def is_live_game_market (m : Market) (now_utc : ℚ)
    (max_hours_until_exp : ℚ) (min_hours_since_open : ℚ) : Bool :=
  let status := pyLower (m.status.getD "")
  if !(status == "open" || status == "active") || !((m.result.getD "") == "") then
    false
  else
    match parse_ts m.open_time, resolve_expiration m with
    | some open_time, some exp =>
      let hours_since_open := (now_utc - open_time) / 3600
      let hours_until_exp := (exp - now_utc) / 3600
      decide (min_hours_since_open ≤ hours_since_open) &&
        decide ((0 : ℚ) ≤ hours_until_exp) &&
        decide (hours_until_exp ≤ max_hours_until_exp)
    | _, _ => false

/-- An event record as read by fetch_live_sports_events: its category and
its (possibly absent, hence empty) markets list. -/
structure QEvent where
  category : Option String
  markets : List Market

/-- One page of the /events response: the events array and the optional
cursor. -/
structure QResp where
  events : List QEvent
  cursor : Option String

/-- A query-string value (requests serialises strings, ints and bools). -/
inductive PVal
  | pstr (s : String)
  | pnat (n : Nat)
  | pbool (b : Bool)
  deriving DecidableEq

abbrev QParams := List (String × PVal)

/-- Assignment into the params dict: an existing key keeps its position,
a new key is appended. -/
def setParam (ps : QParams) (k : String) (v : PVal) : QParams :=
  match ps with
  | [] => [(k, v)]
  | (k1, v1) :: rest =>
    if k1 = k then (k, v) :: rest else (k1, v1) :: setParam rest k v

/-- Membership of a key in the params dict. -/
def hasParam (ps : QParams) (k : String) : Bool :=
  ps.any (fun p => p.1 == k)

/-- The params dict built at the top of fetch_live_sports_events. -/
def init_params (now_ts : Nat) : QParams :=
  [("status", .pstr "open"), ("limit", .pnat 200),
   ("with_nested_markets", .pbool true), ("min_close_ts", .pnat now_ts)]

/-- The pagination loop of fetch_live_sports_events, with fuel for the
unbounded while-loop.  The api argument stands for one HTTP round trip;
the second component logs the params of every fetch issued.  An event is
kept when its category is Sports and some market is live now. -/
def fls_loop (api : QParams → QResp) (now_utc : ℚ) :
    Nat → QParams → List QEvent → List QEvent × List QParams
  | 0, _, acc => (acc, [])
  | fuel + 1, ps, acc =>
    let data := api ps
    let keep := data.events.filter (fun e =>
      e.category == some "Sports" &&
        e.markets.any (fun m => is_live_game_market m now_utc 4 (1/2)))
    let acc2 := acc ++ keep
    match data.cursor with
    | none => (acc2, [ps])
    | some c =>
      if c = "" then (acc2, [ps])
      else
        let r := fls_loop api now_utc fuel (setParam ps "cursor" (.pstr c)) acc2
        (r.1, ps :: r.2)

/-- query.py fetch_live_sports_events: run the loop from the initial
params and an empty accumulator. -/
def fetch_live_sports_events (api : QParams → QResp) (now_ts : Nat)
    (now_utc : ℚ) (fuel : Nat) : List QEvent × List QParams :=
  fls_loop api now_utc fuel (init_params now_ts) []

end Query

namespace StreamEvents

/-- One page of the /events response as consumed by the stream:
the events array (dict.get default: empty) and the optional cursor. -/
structure PageResp (α : Type) where
  events : List α
  cursor : Option String

/-- The query parameters built by fetch_from_events_list: an empty dict
to which the cursor is added only when truthy (non-None and non-empty). -/
def fetch_from_events_list_params (cursor : Option String) : Query.QParams :=
  match cursor with
  | some c => if c = "" then [] else [("cursor", .pstr c)]
  | none => []

/-- Boolean truthiness of an optional cursor string. -/
def truthyCursor : Option String → Bool
  | some c => !(c == "")
  | none => false

/-- stream_from_events_list with fuel for the unbounded while-loop.  api
stands for fetch_from_events_list applied to the current cursor; the
first component collects the yielded events in order, the second logs the
cursor argument of every page fetch issued. -/
def stream_from_events_list {α : Type} (api : Option String → PageResp α) :
    Nat → Option String → List α × List (Option String)
  | 0, _ => ([], [])
  | fuel + 1, cursor =>
    let data := api cursor
    match data.cursor with
    | none => (data.events, [cursor])
    | some c =>
      if c = "" then (data.events, [cursor])
      else
        let r := stream_from_events_list api fuel (some c)
        (data.events ++ r.1, cursor :: r.2)

/-- The bounded branch of limit: enumerate the upstream, break as soon as
the index reaches n.  The second component counts the items actually
drawn from the upstream iterator (the break still draws the one in-flight
item it inspects). -/
def limitLoop {α : Type} (n : Nat) : List α → Nat → List α × Nat
  | [], _ => ([], 0)
  | x :: xs, i =>
    if n ≤ i then ([], 1)
    else
      let r := limitLoop n xs (i + 1)
      (x :: r.1, r.2 + 1)

/-- stream_events.py limit: None passes the whole stream through (one
pull per item), a bound n runs the enumerate loop. -/
def limit {α : Type} (stream : List α) : Option Nat → List α × Nat
  | none => (stream, stream.length)
  | some n => limitLoop n stream 0

/-- The one field of an event that enrich_with_details reads. -/
structure SEEvent where
  event_ticker : Option String

/-- stream_events.py enrich_with_details.  fetch stands for
fetch_from_event_detail; the second component logs its invocations.  An
event whose ticker is falsy (absent or empty) is skipped. -/
def enrich_with_details {α : Type} (fetch : String → Bool → α) (wn : Bool) :
    List SEEvent → List α × List (String × Bool)
  | [] => ([], [])
  | e :: rest =>
    let r := enrich_with_details fetch wn rest
    match e.event_ticker with
    | some t => if t = "" then r else (fetch t wn :: r.1, (t, wn) :: r.2)
    | none => r

/-! For extract_markets and to_summary the claims concern object identity
(records are copied, inputs never written), so records live in an
explicit heap: an address is an index, allocation appends.  Arrays in the
fragment these functions touch are arrays of records (market lists), so
an array value holds the addresses of its elements. -/

/-- A JSON-ish field value. -/
inductive HVal
  | vnull
  | vstr (s : String)
  | vnum (q : ℚ)
  | vaddr (a : Nat)
  | varr (elems : List Nat)
  deriving DecidableEq

/-- A record: an insertion-ordered dict. -/
abbrev HRec := List (String × HVal)

/-- A heap of records; the address of a record is its index. -/
abbrev Heap := List HRec

/-- dict.get k (no default): the value at the first matching key. -/
def rlookup (r : HRec) (k : String) : Option HVal :=
  match r with
  | [] => none
  | (k1, v) :: rest => if k1 = k then some v else rlookup rest k

/-- dict assignment: an existing key keeps its position, a new key is
appended at the end. -/
def setKey (r : HRec) (k : String) (v : HVal) : HRec :=
  match r with
  | [] => [(k, v)]
  | (k1, v1) :: rest =>
    if k1 = k then (k, v) :: rest else (k1, v1) :: setKey rest k v

/-- Dereference an address. -/
def heapGet (h : Heap) (a : Nat) : HRec := h.getD a []

/-- The inner loop of extract_markets: each market is copied
(dict(market)), the copy gets the event_category key, the copy is
allocated and its address yielded. -/
def extractLoop (cat : HVal) : Heap → List Nat → Heap × List Nat
  | hh, [] => (hh, [])
  | hh, a :: rest =>
    let enriched := setKey (heapGet hh a) "event_category" cat
    let r := extractLoop cat (hh ++ [enriched]) rest
    (r.1, hh.length :: r.2)

/-- item.get("event", item): the wrapped event record when the item has
an event key holding one, otherwise the item itself.  An event key
holding a non-record would make the subsequent .get raise in Python;
that case is outside the modelled fragment. -/
def event_data_of (h : Heap) (item : Nat) : HRec :=
  match rlookup (heapGet h item) "event" with
  | some (.vaddr a) => heapGet h a
  | some _ => []
  | none => heapGet h item

/-- event_data.get("markets", []): the market addresses of the located
event record, empty when the key is absent (a non-array value would make
the Python for-loop raise; outside the modelled fragment). -/
def markets_of (h : Heap) (item : Nat) : List Nat :=
  match rlookup (event_data_of h item) "markets" with
  | some (.varr xs) => xs
  | _ => []

/-- event_data.get("category"): the parent category carried onto each
market (None when absent). -/
def event_category_of (h : Heap) (item : Nat) : HVal :=
  (rlookup (event_data_of h item) "category").getD .vnull

/-- extract_markets on a single stream item. -/
def extract_one (h : Heap) (item : Nat) : Heap × List Nat :=
  extractLoop (event_category_of h item) h (markets_of h item)

/-- stream_events.py extract_markets over the whole stream of items. -/
def extract_markets : Heap → List Nat → Heap × List Nat
  | h, [] => (h, [])
  | h, it :: rest =>
    let r1 := extract_one h it
    let r2 := extract_markets r1.1 rest
    (r2.1, r1.2 ++ r2.2)

/-- The fresh summary dict built by to_summary for one item: start from
an empty dict and assign each requested field, reading the item with
dict.get (missing key: None). -/
def summaryOf (itemRec : HRec) (fields : List (String × String)) : HRec :=
  fields.foldl (fun s p => setKey s p.1 ((rlookup itemRec p.2).getD .vnull)) []

/-- stream_events.py to_summary: allocate one fresh summary record per
item and yield its address. -/
def to_summary (fields : List (String × String)) : Heap → List Nat → Heap × List Nat
  | h, [] => (h, [])
  | h, it :: rest =>
    let summary := summaryOf (heapGet h it) fields
    let r := to_summary fields (h ++ [summary]) rest
    (r.1, h.length :: r.2)

end StreamEvents

namespace StreamEvents

/-- Generalised accounting for the bounded branch of limit: from start
index i it yields the next n - i items and draws min (n - i + 1) (length)
items from upstream. -/
theorem limitLoop_spec {α : Type} (n : Nat) :
    ∀ (s : List α) (i : Nat),
      (limitLoop n s i).1 = s.take (n - i) ∧
      (limitLoop n s i).2 = min (n - i + 1) s.length := by
  intro s
  induction s with
  | nil =>
    intro i
    simp [limitLoop]
  | cons x xs ih =>
    intro i
    by_cases h : n ≤ i
    · have hni : n - i = 0 := by omega
      simp [limitLoop, h, hni, Nat.min_def]
    · have hni : n - i = (n - (i + 1)) + 1 := by omega
      have := ih (i + 1)
      simp [limitLoop, h, hni, this.1, this.2, List.take_succ_cons, Nat.min_def]
      split_ifs <;> omega

end StreamEvents

/-- C3: limit s (some n) yields exactly the first min n (length s) items
in order while drawing min (n + 1) (length s) items from upstream (one
in-flight item beyond the n yielded, never more), and limit s none
passes everything through with one pull per item. -/
theorem C3_limit_spec {α : Type} (s : List α) (n : Nat) :
    (StreamEvents.limit s (some n)).1 = s.take n ∧
    (StreamEvents.limit s (some n)).2 = min (n + 1) s.length ∧
    StreamEvents.limit s none = (s, s.length) := by
  have h := StreamEvents.limitLoop_spec n s 0
  exact ⟨by simpa using h.1, by simpa using h.2, rfl⟩

/-- A concrete detail fetcher used by witnesses. -/
def idFetch : String → Bool → String := fun t _ => t

/-- A stream event with an empty-string ticker. -/
def eNoTicker : StreamEvents.SEEvent := ⟨some ""⟩

/-- C6: enrich_with_details silently drops an event whose ticker is
absent or empty (no output, no detail fetch, no error), and an event
with a non-empty ticker contributes exactly the detail fetcher's result
for that ticker, with exactly one logged fetch. -/
theorem C6_enrich_spec {α : Type} (fetch : String → Bool → α) (wn : Bool)
    (e : StreamEvents.SEEvent) (rest : List StreamEvents.SEEvent) :
    (e.event_ticker.getD "" = "" →
      StreamEvents.enrich_with_details fetch wn (e :: rest) =
        StreamEvents.enrich_with_details fetch wn rest) ∧
    (∀ t : String, e.event_ticker = some t → t ≠ "" →
      StreamEvents.enrich_with_details fetch wn (e :: rest) =
        (fetch t wn :: (StreamEvents.enrich_with_details fetch wn rest).1,
         (t, wn) :: (StreamEvents.enrich_with_details fetch wn rest).2)) := by
  constructor
  · intro h
    cases he : e.event_ticker with
    | none => simp [StreamEvents.enrich_with_details, he]
    | some t =>
      rw [he] at h
      simp at h
      simp [StreamEvents.enrich_with_details, he, h]
  · intro t ht hne
    simp [StreamEvents.enrich_with_details, ht, hne]

/-- Witness for C6 at a concrete event with an empty-string ticker. -/
theorem C6_witness :
    eNoTicker.event_ticker.getD "" = "" ∧
    StreamEvents.enrich_with_details idFetch true [eNoTicker] =
      StreamEvents.enrich_with_details idFetch true [] :=
  ⟨rfl, (C6_enrich_spec idFetch true eNoTicker []).1 rfl⟩

/-- C7: an API whose first page carries cursor "abc" and whose second
carries none is traversed as exactly two sequential page fetches (first
with no cursor, then with cursor "abc"), all events of both pages being
yielded in page order. -/
theorem C7_two_page_traversal {α : Type} (api : Option String → StreamEvents.PageResp α)
    (fuel : Nat) (h1 : (api none).cursor = some "abc")
    (h2 : (api (some "abc")).cursor = none) (hf : 2 ≤ fuel) :
    StreamEvents.stream_from_events_list api fuel none =
      ((api none).events ++ (api (some "abc")).events, [none, some "abc"]) := by
  obtain ⟨k, rfl⟩ : ∃ k, fuel = k + 1 + 1 := ⟨fuel - 2, by omega⟩
  simp [StreamEvents.stream_from_events_list, h1, h2]

/-- A concrete two-page API used by the C7 witness. -/
def apiTwoPages : Option String → StreamEvents.PageResp String :=
  fun c =>
    match c with
    | none => ⟨["e1", "e2"], some "abc"⟩
    | some s => if s = "abc" then ⟨["e3"], none⟩ else ⟨[], none⟩

/-- Witness for C7 on the concrete two-page API. -/
theorem C7_witness :
    StreamEvents.stream_from_events_list apiTwoPages 2 none =
      ((apiTwoPages none).events ++ (apiTwoPages (some "abc")).events,
       [none, some "abc"]) :=
  C7_two_page_traversal apiTwoPages 2 rfl rfl (by omega)

/-- A one-page API whose response carries an empty-string cursor. -/
def apiEmptyCursor : Option String → StreamEvents.PageResp String :=
  fun _ => ⟨["x"], some ""⟩

/-- A one-page query.py API whose response carries an empty-string
cursor. -/
def apiQEmptyCursor : Query.QParams → Query.QResp :=
  fun _ => ⟨[], some ""⟩

/-- C9: both pagination loops treat an empty-string cursor like an
absent one: a response whose cursor is the empty string ends the
traversal with exactly one logged page fetch, whatever fuel remains. -/
theorem C9_empty_cursor_stops {α : Type} (api : Option String → StreamEvents.PageResp α)
    (c0 : Option String) (fuel : Nat)
    (api2 : Query.QParams → Query.QResp) (now_ts : Nat) (now_utc : ℚ) (fuel2 : Nat)
    (h1 : (api c0).cursor = some "")
    (h2 : (api2 (Query.init_params now_ts)).cursor = some "") :
    StreamEvents.stream_from_events_list api (fuel + 1) c0 = ((api c0).events, [c0]) ∧
    (Query.fetch_live_sports_events api2 now_ts now_utc (fuel2 + 1)).2 =
      [Query.init_params now_ts] := by
  constructor
  · simp [StreamEvents.stream_from_events_list, h1]
  · simp [Query.fetch_live_sports_events, Query.fls_loop, h2]

/-- Witness for C9 on the two concrete empty-cursor APIs. -/
theorem C9_witness :
    StreamEvents.stream_from_events_list apiEmptyCursor 3 none =
      ((apiEmptyCursor none).events, [none]) ∧
    (Query.fetch_live_sports_events apiQEmptyCursor 7 0 4).2 =
      [Query.init_params 7] :=
  C9_empty_cursor_stops apiEmptyCursor none 2 apiQEmptyCursor 7 0 3 rfl rfl

/-- C10: is_live_game_market reads the status case-insensitively (an
uppercase or mixed-case spelling behaves exactly like its lowercase
form, for every market and every threshold), and a missing status acts
as the empty string, failing the check without error. -/
theorem C10_status_case_insensitive (m : Query.Market) (now maxh minh : ℚ) :
    Query.is_live_game_market { m with status := some "OPEN" } now maxh minh =
      Query.is_live_game_market { m with status := some "open" } now maxh minh ∧
    Query.is_live_game_market { m with status := some "Active" } now maxh minh =
      Query.is_live_game_market { m with status := some "active" } now maxh minh ∧
    Query.is_live_game_market { m with status := none } now maxh minh = false := by
  have h1 : Query.pyLower "OPEN" = "open" := by decide
  have h2 : Query.pyLower "Active" = "active" := by decide
  have h3 : Query.pyLower "open" = "open" := by decide
  have h4 : Query.pyLower "active" = "active" := by decide
  have h5 : Query.pyLower "" = "" := by decide
  refine ⟨?_, ?_, ?_⟩ <;>
    simp [Query.is_live_game_market, Query.resolve_expiration, h1, h2, h3, h4, h5]

namespace Query

/-- Key membership after a params-dict assignment: the assigned key and
every previously present key. -/
theorem hasParam_setParam (ps : QParams) (k k' : String) (v : PVal) :
    hasParam (setParam ps k v) k' = ((k' == k) || hasParam ps k') := by
  induction ps with
  | nil =>
    simp [setParam, hasParam]
    exact eq_comm
  | cons p rest ih =>
    by_cases h : p.1 = k
    · simp [setParam, hasParam, h]
      by_cases h' : k' = k <;> simp [h']
    · cases p with
    | mk k1 v1 =>
      simp only at h
      simp only [setParam, hasParam, if_neg h, List.any_cons] at *
      rw [ih, Bool.or_left_comm]

/-- Every page fetch of the fetch_live_sports_events loop keeps the
status and limit keys of its params dict. -/
theorem fls_loop_log_keys (api : QParams → QResp) (now_utc : ℚ) :
    ∀ (fuel : Nat) (ps : QParams) (acc : List QEvent),
      hasParam ps "status" = true → hasParam ps "limit" = true →
      ((fls_loop api now_utc fuel ps acc).2).all
        (fun p => hasParam p "status" && hasParam p "limit") = true := by
  intro fuel
  induction fuel with
  | zero => intro ps acc h1 h2; simp [fls_loop]
  | succ n ih =>
    intro ps acc h1 h2
    simp only [fls_loop]
    cases hc : (api ps).cursor with
    | none => simp [h1, h2]
    | some c =>
      by_cases hce : c = ""
      · simp [hce, h1, h2]
      · have hpre1 : hasParam (setParam ps "cursor" (.pstr c)) "status" = true := by
          rw [hasParam_setParam, h1]; simp
        have hpre2 : hasParam (setParam ps "cursor" (.pstr c)) "limit" = true := by
          rw [hasParam_setParam, h2]; simp
        simp only [hc]
        rw [if_neg hce]
        simp only [List.all_cons, h1, h2, Bool.and_self, Bool.true_and]
        exact ih _ _ hpre1 hpre2

end Query

/-- C1 counterexample: the stream_events.py events-list fetcher sends no
page-size limit parameter at all (here on the first, cursorless call),
so not every fetch of both pipelines carries a limit parameter. -/
theorem C1_counterexample :
    Query.hasParam (StreamEvents.fetch_from_events_list_params none) "limit" = false := by
  decide

/-- C1 amended: stream_events.py's events-list fetcher sends only the
cursor parameter, and it exactly when the supplied cursor is non-empty —
never a limit or status parameter; in query.py every fetch issued by the
pagination loop does carry the status and limit parameters (and its
first fetch carries no cursor). -/
theorem C1_amended_params (cursor : Option String)
    (api : Query.QParams → Query.QResp) (now_ts : Nat) (now_utc : ℚ) (fuel : Nat) :
    (Query.hasParam (StreamEvents.fetch_from_events_list_params cursor) "cursor" =
        StreamEvents.truthyCursor cursor ∧
      Query.hasParam (StreamEvents.fetch_from_events_list_params cursor) "limit" = false ∧
      Query.hasParam (StreamEvents.fetch_from_events_list_params cursor) "status" = false) ∧
    ((Query.fetch_live_sports_events api now_ts now_utc fuel).2.all
        (fun p => Query.hasParam p "status" && Query.hasParam p "limit") = true ∧
      Query.hasParam (Query.init_params now_ts) "cursor" = false) := by
  constructor
  · cases cursor with
    | none => simp [StreamEvents.fetch_from_events_list_params, StreamEvents.truthyCursor, Query.hasParam]
    | some c =>
      by_cases h : c = "" <;>
        simp [StreamEvents.fetch_from_events_list_params, StreamEvents.truthyCursor, h, Query.hasParam]
  · constructor
    · exact Query.fls_loop_log_keys api now_utc fuel (Query.init_params now_ts) []
        (by simp [Query.hasParam, Query.init_params])
        (by simp [Query.hasParam, Query.init_params])
    · simp [Query.hasParam, Query.init_params]

/-- The concrete now instant of the is_live examples:
2025-11-04T20:00:00Z, in epoch seconds. -/
def T0 : ℚ := 1762286400

/-- Epoch seconds of the example open time T0 - 1h
(2025-11-04T19:00:00Z). -/
def tOpenLive : ℚ := 1762282800

/-- Epoch seconds of the example expiration T0 + 2h
(2025-11-04T22:00:00Z). -/
def tExpLive : ℚ := 1762293600

/-- The parser on the concrete 18:00 timestamp. -/
theorem parse_ts_1800 :
    Query.parse_ts (some "2025-11-04T18:00:00Z") = some 1762279200 := by
  rw [show Query.parse_ts (some "2025-11-04T18:00:00Z") =
      some (Query.toEpoch 2025 11 4 18 0 0 0) from rfl]
  norm_num [Query.toEpoch, show Query.daysFromCivil 2025 11 4 = 20396 from by decide]

/-- The parser on the concrete 19:00 timestamp. -/
theorem parse_ts_1900 :
    Query.parse_ts (some "2025-11-04T19:00:00Z") = some 1762282800 := by
  rw [show Query.parse_ts (some "2025-11-04T19:00:00Z") =
      some (Query.toEpoch 2025 11 4 19 0 0 0) from rfl]
  norm_num [Query.toEpoch, show Query.daysFromCivil 2025 11 4 = 20396 from by decide]

/-- The parser on the concrete 19:54 timestamp. -/
theorem parse_ts_1954 :
    Query.parse_ts (some "2025-11-04T19:54:00Z") = some 1762286040 := by
  rw [show Query.parse_ts (some "2025-11-04T19:54:00Z") =
      some (Query.toEpoch 2025 11 4 19 54 0 0) from rfl]
  norm_num [Query.toEpoch, show Query.daysFromCivil 2025 11 4 = 20396 from by decide]

/-- The parser on the concrete 22:00 timestamp. -/
theorem parse_ts_2200 :
    Query.parse_ts (some "2025-11-04T22:00:00Z") = some 1762293600 := by
  rw [show Query.parse_ts (some "2025-11-04T22:00:00Z") =
      some (Query.toEpoch 2025 11 4 22 0 0 0) from rfl]
  norm_num [Query.toEpoch, show Query.daysFromCivil 2025 11 4 = 20396 from by decide]

/-- An open market that opened 1h ago and expires in 2h. -/
def mLive : Query.Market :=
  ⟨some "open", none, some "2025-11-04T19:00:00Z", some "2025-11-04T22:00:00Z", none, none⟩

/-- Same but opened only 0.1h ago. -/
def mLateOpen : Query.Market :=
  ⟨some "open", none, some "2025-11-04T19:54:00Z", some "2025-11-04T22:00:00Z", none, none⟩

/-- Same but already expired 1h ago. -/
def mExpired : Query.Market :=
  ⟨some "open", none, some "2025-11-04T18:00:00Z", some "2025-11-04T19:00:00Z", none, none⟩

/-- Same timing as mLive but with status closed. -/
def mClosed : Query.Market :=
  ⟨some "closed", none, some "2025-11-04T19:00:00Z", some "2025-11-04T22:00:00Z", none, none⟩

/-- An otherwise live market whose open time does not parse. -/
def mBadOpen : Query.Market :=
  ⟨some "open", none, some "not-a-timestamp", some "2025-11-04T22:00:00Z", none, none⟩

/-- An otherwise live market with no open time at all. -/
def mNoOpen : Query.Market :=
  ⟨some "open", none, none, some "2025-11-04T22:00:00Z", none, none⟩

/-- An otherwise live market with no expiration field at all. -/
def mNoExp : Query.Market :=
  ⟨some "open", none, some "2025-11-04T19:00:00Z", none, none, none⟩

/-- A market whose expected-expiration field is present but unparseable
while the plain expiration field parses. -/
def mExpBad : Query.Market :=
  ⟨some "open", none, none, some "not-a-timestamp", none, some "2025-11-04T22:00:00Z"⟩

/-- Open time of the live example market. -/
theorem hot_mLive : Query.parse_ts mLive.open_time = some tOpenLive := parse_ts_1900

/-- Resolved expiration of the live example market. -/
theorem hex_mLive : Query.resolve_expiration mLive = some tExpLive := by
  simp only [Query.resolve_expiration, mLive]
  rw [parse_ts_2200]
  rfl

/-- Resolved expiration of the late-open example market. -/
theorem hex_mLateOpen : Query.resolve_expiration mLateOpen = some tExpLive := by
  simp only [Query.resolve_expiration, mLateOpen]
  rw [parse_ts_2200]
  rfl

/-- Resolved expiration of the expired example market. -/
theorem hex_mExpired : Query.resolve_expiration mExpired = some 1762282800 := by
  simp only [Query.resolve_expiration, mExpired]
  rw [parse_ts_1900]
  rfl

/-- The window characterisation of is_live_game_market for a market that
passes the status and result gates and whose timestamps resolve. -/
theorem is_live_characterization (m : Query.Market) (now ot ex maxh minh : ℚ)
    (hstat : m.status = some "open" ∨ m.status = some "active")
    (hres : m.result = none ∨ m.result = some "")
    (hot : Query.parse_ts m.open_time = some ot)
    (hex : Query.resolve_expiration m = some ex) :
    Query.is_live_game_market m now maxh minh = true ↔
      (minh ≤ (now - ot) / 3600 ∧ (0 : ℚ) ≤ (ex - now) / 3600 ∧
        (ex - now) / 3600 ≤ maxh) := by
  have hlow : Query.pyLower "open" = "open" := by decide
  have hlow2 : Query.pyLower "active" = "active" := by decide
  rcases hstat with h | h <;> rcases hres with h2 | h2 <;>
    simp [Query.is_live_game_market, h, h2, hot, hex, hlow, hlow2,
      decide_eq_true_eq, and_assoc]

/-- C2 counterexample: on a market whose expected-expiration field is
present (but unparseable), the resolution does not use that first
present field — it falls through to a later field, contradicting
first-present-wins. -/
theorem C2_counterexample :
    mExpBad.expected_expiration_time.isSome = true ∧
    Query.resolve_expiration mExpBad ≠ Query.parse_ts mExpBad.expected_expiration_time := by
  exact ⟨rfl, by decide⟩

/-- C2 amended: the expiration fields are tried in the fixed order
expected, latest, plain, and the first whose value parses successfully
wins; a field that is absent, empty or unparseable falls through to the
next. -/
theorem C2_amended_first_parse_wins (m : Query.Market) (t : ℚ) :
    (Query.parse_ts m.expected_expiration_time = some t →
      Query.resolve_expiration m = some t) ∧
    (Query.parse_ts m.expected_expiration_time = none →
      Query.parse_ts m.latest_expiration_time = some t →
      Query.resolve_expiration m = some t) ∧
    (Query.parse_ts m.expected_expiration_time = none →
      Query.parse_ts m.latest_expiration_time = none →
      Query.resolve_expiration m = Query.parse_ts m.expiration_time) := by
  refine ⟨fun h1 => ?_, fun h1 h2 => ?_, fun h1 h2 => ?_⟩ <;>
    simp [Query.resolve_expiration, Option.orElse, h1, *]

/-- Witness for C2 on a market whose expected-expiration parses. -/
theorem C2_witness :
    Query.parse_ts mLive.expected_expiration_time = some tExpLive ∧
    Query.resolve_expiration mLive = some tExpLive :=
  ⟨parse_ts_2200, (C2_amended_first_parse_wins mLive tExpLive).1 parse_ts_2200⟩

/-- C4: for a market that is open or active, unresolved, and whose open
and resolved expiration times parse, the predicate holds exactly when at
least min_hours_since_open hours have elapsed since open and the hours
until expiration lie in [0, max_hours_until_exp]; the listed concrete
cases behave as claimed with default thresholds at now = T0, and absent
or unparseable timestamps yield false rather than an error. -/
theorem C4_is_live_spec (m : Query.Market) (now ot ex maxh minh : ℚ)
    (hstat : m.status = some "open" ∨ m.status = some "active")
    (hres : m.result = none ∨ m.result = some "")
    (hot : Query.parse_ts m.open_time = some ot)
    (hex : Query.resolve_expiration m = some ex) :
    (Query.is_live_game_market m now maxh minh = true ↔
        (minh ≤ (now - ot) / 3600 ∧ (0 : ℚ) ≤ (ex - now) / 3600 ∧
          (ex - now) / 3600 ≤ maxh)) ∧
    Query.is_live_game_market mLive T0 4 (1/2) = true ∧
    Query.is_live_game_market mLateOpen T0 4 (1/2) = false ∧
    Query.is_live_game_market mExpired T0 4 (1/2) = false ∧
    Query.is_live_game_market mClosed T0 4 (1/2) = false ∧
    Query.is_live_game_market mBadOpen T0 4 (1/2) = false ∧
    Query.is_live_game_market mNoOpen T0 4 (1/2) = false ∧
    Query.is_live_game_market mNoExp T0 4 (1/2) = false := by
  refine ⟨is_live_characterization m now ot ex maxh minh hstat hres hot hex,
    ?_, ?_, ?_, by decide, by decide, by decide, by decide⟩
  · exact (is_live_characterization mLive T0 tOpenLive tExpLive 4 (1/2)
      (Or.inl rfl) (Or.inl rfl) hot_mLive hex_mLive).mpr
      (by norm_num [T0, tOpenLive, tExpLive])
  · have h := is_live_characterization mLateOpen T0 1762286040 tExpLive 4 (1/2)
      (Or.inl rfl) (Or.inl rfl) parse_ts_1954 hex_mLateOpen
    cases hb : Query.is_live_game_market mLateOpen T0 4 (1/2) with
    | false => rfl
    | true => exact absurd (h.mp hb).1 (by norm_num [T0])
  · have h := is_live_characterization mExpired T0 1762279200 1762282800 4 (1/2)
      (Or.inl rfl) (Or.inl rfl) parse_ts_1800 hex_mExpired
    cases hb : Query.is_live_game_market mExpired T0 4 (1/2) with
    | false => rfl
    | true => exact absurd (h.mp hb).2.1 (by norm_num [T0])

/-- Witness for C4 on the live example market. -/
theorem C4_witness :
    (mLive.status = some "open" ∨ mLive.status = some "active") ∧
    (mLive.result = none ∨ mLive.result = some "") ∧
    Query.parse_ts mLive.open_time = some tOpenLive ∧
    Query.resolve_expiration mLive = some tExpLive ∧
    (Query.is_live_game_market mLive T0 4 (1/2) = true ↔
        ((1/2 : ℚ) ≤ (T0 - tOpenLive) / 3600 ∧ (0 : ℚ) ≤ (tExpLive - T0) / 3600 ∧
          (tExpLive - T0) / 3600 ≤ 4)) :=
  ⟨Or.inl rfl, Or.inl rfl, hot_mLive, hex_mLive,
    (C4_is_live_spec mLive T0 tOpenLive tExpLive 4 (1/2) (Or.inl rfl) (Or.inl rfl)
      hot_mLive hex_mLive).1⟩

namespace StreamEvents

/-- Looking up the key just assigned returns the assigned value. -/
theorem rlookup_setKey (r : HRec) (k : String) (v : HVal) :
    rlookup (setKey r k v) k = some v := by
  induction r with
  | nil => simp [setKey, rlookup]
  | cons p rest ih =>
    by_cases h : p.1 = k
    · simp [setKey, rlookup, h]
    · simp [setKey, rlookup, h, ih]

/-- extractLoop appends exactly one fresh enriched record per market and
yields the consecutive addresses of those fresh records. -/
theorem extractLoop_shape (cat : HVal) :
    ∀ (ms : List Nat) (hh : Heap),
      ∃ recs : List HRec,
        (extractLoop cat hh ms).1 = hh ++ recs ∧
        recs.length = ms.length ∧
        (extractLoop cat hh ms).2 = List.range' hh.length ms.length ∧
        ∀ r ∈ recs, ∃ b, r = setKey b "event_category" cat := by
  intro ms
  induction ms with
  | nil =>
    intro hh
    exact ⟨[], by simp [extractLoop], rfl, by simp [extractLoop, List.range'], by simp⟩
  | cons a rest ih =>
    intro hh
    obtain ⟨recs, h1, h2, h3, h4⟩ := ih (hh ++ [setKey (heapGet hh a) "event_category" cat])
    refine ⟨setKey (heapGet hh a) "event_category" cat :: recs, ?_, ?_, ?_, ?_⟩
    · simp [extractLoop, h1]
    · simp [h2]
    · have hlen : (hh ++ [setKey (heapGet hh a) "event_category" cat]).length =
        hh.length + 1 := by simp
      simp [extractLoop, h3, hlen, List.range']
    · intro r hr
      rcases List.mem_cons.mp hr with hr | hr
      · exact ⟨heapGet hh a, hr⟩
      · exact h4 r hr

/-- extract_one only allocates: the original heap is an unchanged
initial segment, the outputs are the consecutive fresh addresses, and
every fresh record carries the event_category key. -/
theorem extract_one_spec (h : Heap) (item : Nat) :
    ∃ recs : List HRec,
      (extract_one h item).1 = h ++ recs ∧
      recs.length = (markets_of h item).length ∧
      (extract_one h item).2 = List.range' h.length (markets_of h item).length ∧
      ∀ r ∈ recs, ∃ b, r = setKey b "event_category" (event_category_of h item) :=
  extractLoop_shape (event_category_of h item) (markets_of h item) h

/-- extract_markets only allocates: the original heap is an unchanged
initial segment and every yielded address is fresh. -/
theorem extract_markets_extends :
    ∀ (items : List Nat) (h : Heap),
      ∃ ext : List HRec,
        (extract_markets h items).1 = h ++ ext ∧
        ∀ a ∈ (extract_markets h items).2, h.length ≤ a := by
  intro items
  induction items with
  | nil => intro h; exact ⟨[], by simp [extract_markets], by simp [extract_markets]⟩
  | cons it rest ih =>
    intro h
    obtain ⟨recs, h1, _, h3, _⟩ := extract_one_spec h it
    obtain ⟨ext, e1, e2⟩ := ih (extract_one h it).1
    refine ⟨recs ++ ext, ?_, ?_⟩
    · simp only [extract_markets]
      rw [e1, h1, List.append_assoc]
    · intro a ha
      simp only [extract_markets, List.mem_append] at ha
      rcases ha with ha | ha
      · rw [h3] at ha
        exact (List.mem_range'_1.mp ha).1
      · have := e2 a ha
        rw [h1] at this
        simp at this
        omega

/-- to_summary only allocates: the original heap is an unchanged initial
segment and every yielded address is fresh. -/
theorem to_summary_extends (fields : List (String × String)) :
    ∀ (items : List Nat) (h : Heap),
      ∃ ext : List HRec,
        (to_summary fields h items).1 = h ++ ext ∧
        ∀ a ∈ (to_summary fields h items).2, h.length ≤ a := by
  intro items
  induction items with
  | nil => intro h; exact ⟨[], by simp [to_summary], by simp [to_summary]⟩
  | cons it rest ih =>
    intro h
    obtain ⟨ext, e1, e2⟩ := ih (h ++ [summaryOf (heapGet h it) fields])
    refine ⟨summaryOf (heapGet h it) fields :: ext, ?_, ?_⟩
    · simp only [to_summary]
      rw [e1]
      simp
    · intro a ha
      simp only [to_summary, List.mem_cons] at ha
      rcases ha with rfl | ha
      · exact Nat.le_refl _
      · have := e2 a ha
        simp at this
        omega

end StreamEvents

/-- C8: the stream transformations never write to an existing record:
after extract_markets or to_summary runs, every pre-existing heap record
is unchanged (the original heap is an untouched initial segment), and
every yielded record is a freshly allocated one. -/
theorem C8_no_mutation (h : StreamEvents.Heap) (items : List Nat)
    (fields : List (String × String)) :
    (StreamEvents.extract_markets h items).1.take h.length = h ∧
    (StreamEvents.extract_markets h items).2.all (fun a => decide (h.length ≤ a)) = true ∧
    (StreamEvents.to_summary fields h items).1.take h.length = h ∧
    (StreamEvents.to_summary fields h items).2.all (fun a => decide (h.length ≤ a)) = true := by
  obtain ⟨ext, e1, e2⟩ := StreamEvents.extract_markets_extends items h
  obtain ⟨ext2, f1, f2⟩ := StreamEvents.to_summary_extends fields items h
  refine ⟨?_, ?_, ?_, ?_⟩
  · rw [e1, List.take_left]
  · rw [List.all_eq_true]
    intro a ha
    simpa using e2 a ha
  · rw [f1, List.take_left]
  · rw [List.all_eq_true]
    intro a ha
    simpa using f2 a ha

/-- C5: extract_markets locates the markets both on a bare event item
and on an item wrapped as an event-keyed record; an event with k markets
contributes exactly k output records, and every output record carries
the parent event's category under the event_category key. -/
theorem C5_extract_markets_spec (h : StreamEvents.Heap) (item e : Nat) (xs : List Nat)
    (hcase : StreamEvents.rlookup (StreamEvents.heapGet h item) "event" =
        some (.vaddr e) ∨
      (StreamEvents.rlookup (StreamEvents.heapGet h item) "event" = none ∧ e = item))
    (hmk : StreamEvents.rlookup (StreamEvents.heapGet h e) "markets" =
      some (.varr xs)) :
    (StreamEvents.extract_one h item).2.length = xs.length ∧
    (StreamEvents.extract_one h item).2.all (fun a =>
      decide (StreamEvents.rlookup
          (StreamEvents.heapGet (StreamEvents.extract_one h item).1 a) "event_category" =
        some ((StreamEvents.rlookup (StreamEvents.heapGet h e) "category").getD .vnull))) =
      true := by
  have hed : StreamEvents.event_data_of h item = StreamEvents.heapGet h e := by
    rcases hcase with hc | ⟨hc, rfl⟩ <;> simp [StreamEvents.event_data_of, hc]
  have hm : StreamEvents.markets_of h item = xs := by
    simp [StreamEvents.markets_of, hed, hmk]
  have hcat : StreamEvents.event_category_of h item =
      (StreamEvents.rlookup (StreamEvents.heapGet h e) "category").getD .vnull := by
    simp [StreamEvents.event_category_of, hed]
  obtain ⟨recs, h1, h2, h3, h4⟩ := StreamEvents.extract_one_spec h item
  constructor
  · rw [h3, List.length_range', hm]
  · rw [List.all_eq_true]
    intro a ha
    rw [h3] at ha
    have hb := List.mem_range'_1.mp ha
    have hlt : a - h.length < recs.length := by
      rw [h2]
      omega
    have hget : StreamEvents.heapGet (StreamEvents.extract_one h item).1 a =
        recs.get ⟨a - h.length, hlt⟩ := by
      rw [h1]
      simp [StreamEvents.heapGet, List.getD_eq_getElem?_getD,
        List.getElem?_append_right hb.1, List.getElem?_eq_getElem hlt]
    obtain ⟨b, hbrec⟩ := h4 _ (List.get_mem recs (a - h.length) hlt)
    rw [decide_eq_true_eq, hget, hbrec, StreamEvents.rlookup_setKey, hcat]

/-- A concrete four-record heap: an event with category Sports and two
markets, plus an item wrapping that event. -/
def hWitness : StreamEvents.Heap :=
  [[("category", .vstr "Sports"), ("markets", .varr [1, 2])],
   [("ticker", .vstr "M1")],
   [("ticker", .vstr "M2")],
   [("event", .vaddr 0)]]

/-- Witness for C5 on the wrapped item of the concrete heap. -/
theorem C5_witness :
    (StreamEvents.rlookup (StreamEvents.heapGet hWitness 3) "event" =
        some (.vaddr 0) ∨
      (StreamEvents.rlookup (StreamEvents.heapGet hWitness 3) "event" = none ∧
        0 = 3)) ∧
    StreamEvents.rlookup (StreamEvents.heapGet hWitness 0) "markets" =
      some (.varr [1, 2]) ∧
    ((StreamEvents.extract_one hWitness 3).2.length = [1, 2].length ∧
      (StreamEvents.extract_one hWitness 3).2.all (fun a =>
        decide (StreamEvents.rlookup
            (StreamEvents.heapGet (StreamEvents.extract_one hWitness 3).1 a)
            "event_category" =
          some ((StreamEvents.rlookup (StreamEvents.heapGet hWitness 0) "category").getD
            .vnull))) = true) :=
  ⟨Or.inl (by decide), by decide,
    C5_extract_markets_spec hWitness 3 0 [1, 2] (Or.inl (by decide)) (by decide)⟩
